import Mathlib

/-!
# Verification of the RSS news aggregator (news-aggregator.cc)

A shallow embedding of the concurrent news-feed crawler and its inverted
index. The crawl pipeline (`articletoTokens`, `feedtoTokens`,
`processAllFeeds`, `queryIndex`, `main`) is translated from
`src/news-aggregator.cc`. External fetches (RSS feed list, RSS feeds,
HTML documents) are modelled as oracle parameters returning `Except`
values, mirroring the exceptions the C++ collaborators throw. Semaphores
become explicit permit counters; the concurrent execution of article
tasks is additionally modelled as a small-step transition system for the
concurrency-cap claims.

The collaborator classes whose implementations are not part of the
visible source (RSSIndex, the string utilities) are modelled from the
specification, as marked in their doc comments.
-/

/-! ## Constants from news-aggregator.cc -/

def kMaxfeed : Nat := 8
def kMaxTperS : Nat := 12
def kMaxthread : Nat := 64
def kMaxMatchesToShow : Nat := 15

/-! ## Data model -/

/-- An article: a title and a URL, as produced by the RSS feed parser. -/
structure Article where
  title : String
  url : String
deriving DecidableEq, Repr

/-! ## The inverted index

Modelled from the spec: `rss-index.h` is not part of the visible source.
The spec describes the Index as "a mapping from token → ordered list of
(Article, occurrenceCount) pairs"; `add(article, tokens)` increments, for
each token of the sequence, the occurrence count of `(token, article)`,
creating the token entry and/or the article sub-entry as needed, with
article identity given by the URL string; `query(term)` returns every
article containing the term with its count, ordered by descending count,
ties broken stably by insertion order. We represent the mapping as an
association list from token to its posting list. -/

/-- The inverted index: token → list of (article, occurrence count). -/
abbrev RSSIndex := List (String × List (Article × Nat))

/-- Modelled from the spec: increment the occurrence count recorded for
`article` in one token's posting list, keyed by the article URL;
append a fresh entry with count 1 when the URL is not yet present. -/
def bumpArticle (article : Article) : List (Article × Nat) → List (Article × Nat)
  | [] => [(article, 1)]
  | (a, c) :: rest =>
      if a.url = article.url then (a, c + 1) :: rest
      else (a, c) :: bumpArticle article rest

/-- Modelled from the spec: record one occurrence of token `tok` in
`article`, creating the token's entry when absent. -/
def addTokenEntry (article : Article) (tok : String) : RSSIndex → RSSIndex
  | [] => [(tok, [(article, 1)])]
  | (t, entries) :: rest =>
      if t = tok then (t, bumpArticle article entries) :: rest
      else (t, entries) :: addTokenEntry article tok rest

/-- Modelled from the spec: `RSSIndex::add(article, tokens)` records one
occurrence per token of the sequence, accumulating counts. -/
def RSSIndex.add (idx : RSSIndex) (article : Article) (tokens : List String) : RSSIndex :=
  tokens.foldl (fun i t => addTokenEntry article t i) idx

/-- Posting list stored for a token (empty when the token is absent). -/
def lookupTok : RSSIndex → String → List (Article × Nat)
  | [], _ => []
  | (t, entries) :: rest, tok => if t = tok then entries else lookupTok rest tok

/-- Total occurrence count recorded in a posting list for a given URL. -/
def occList (url : String) : List (Article × Nat) → Nat
  | [] => 0
  | (a, c) :: rest => (if a.url = url then c else 0) + occList url rest

/-- Occurrence count the index records for token `tok` in the article
with URL `url`. -/
def RSSIndex.occ (idx : RSSIndex) (tok url : String) : Nat :=
  occList url (lookupTok idx tok)

/-- Number of entries carrying a given URL in one posting list. -/
def numEntriesList (url : String) : List (Article × Nat) → Nat
  | [] => 0
  | (a, _) :: rest => (if a.url = url then 1 else 0) + numEntriesList url rest

/-- Number of distinct posting-list entries a token has for one URL. -/
def RSSIndex.numEntries (idx : RSSIndex) (tok url : String) : Nat :=
  numEntriesList url (lookupTok idx tok)

/-- Modelled from the spec: stable insertion into a list sorted by
descending count — the inserted entry goes after every entry of strictly
greater count and, on equal counts, before the entries already placed,
which in `sortDesc` all come later in insertion order; together this
implements the spec's tie-break by insertion order. -/
def insertDesc (x : Article × Nat) : List (Article × Nat) → List (Article × Nat)
  | [] => [x]
  | y :: ys => if y.2 ≤ x.2 then x :: y :: ys else y :: insertDesc x ys

/-- Modelled from the spec: stable sort by descending occurrence count. -/
def sortDesc : List (Article × Nat) → List (Article × Nat)
  | [] => []
  | x :: xs => insertDesc x (sortDesc xs)

/-- Modelled from the spec: `RSSIndex::getMatchingArticles(term)` returns
the term's posting list ordered by descending occurrence count. -/
def RSSIndex.getMatchingArticles (idx : RSSIndex) (term : String) : List (Article × Nat) :=
  sortDesc (lookupTok idx term)

/-! ## String and URL utilities

Modelled from the spec: `string-utils.h` and `news-aggregator-utils.h`
are not part of the visible source. The spec only says that overlong
titles/URLs are truncated for display, that query input is trimmed of
surrounding whitespace, and that the origin host is the authority
component of a URL, case-normalized. -/

def kTruncateLimit : Nat := 60

/-- Modelled from the spec: whether a string is overlong for display. -/
def shouldTruncate (s : String) : Bool := kTruncateLimit < s.data.length

/-- Modelled from the spec: shorten an overlong string for display. -/
def truncate (s : String) : String :=
  String.mk (s.data.take kTruncateLimit ++ ['.', '.', '.'])

/-- Modelled from the spec: strip surrounding whitespace from a line. -/
def trim (s : String) : String :=
  String.mk (((s.data.dropWhile Char.isWhitespace).reverse.dropWhile Char.isWhitespace).reverse)

/-- Characters remaining after the first "//" of a URL. -/
def afterScheme : List Char → List Char
  | [] => []
  | [_] => []
  | c1 :: c2 :: rest => if c1 = '/' ∧ c2 = '/' then rest else afterScheme (c2 :: rest)

/-- Modelled from the spec: `getURLServer` — the origin host of a URL,
i.e. the authority component (scheme and path stripped), case-normalized. -/
def getURLServer (url : String) : String :=
  String.mk (((afterScheme url.data).takeWhile (fun c => c ≠ '/')).map Char.toLower)

/-! ## Observable output -/

/-- One progress line on standard out. -/
inductive OutLine
  | beginFeed (url : String)
  | parsing (title : String)
  | atUrl (url : String)
  | endFeed (url : String)
deriving DecidableEq, Repr

/-- One line on standard error. -/
inductive ErrLine
  | articleTrouble (url : String)
  | feedTrouble (url : String)
  | feedListTrouble (url : String)
  | wrongArguments
  | usage (executableName : String)
deriving DecidableEq, Repr

/-- Function `printUsage` from news-aggregator.cc lines 50–52. -/
def printUsage (executableName : String) : ErrLine := ErrLine.usage executableName

/-! ## Crawl state

The static globals of news-aggregator.cc: the two counting semaphores
`feedsAllowed` and `threadsAllowed` (modelled by their available-permit
counts), the `serverlocks` map from host to per-host semaphore, and the
shared `RSSIndex`. We additionally record which feed/article tasks were
spawned and the process output, so that theorems can speak about them. -/

structure AggState where
  feedsAvail : Nat
  threadsAvail : Nat
  hostSems : List (String × Nat)
  index : RSSIndex
  feedsStarted : List String
  articlesStarted : List Article
  out : List OutLine
  err : List ErrLine
deriving DecidableEq, Repr

/-- Available permits of the semaphore stored for host `h`, if any. -/
def semLookup : List (String × Nat) → String → Option Nat
  | [], _ => none
  | (k, v) :: rest, h => if k = h then some v else semLookup rest h

/-- Apply `f` to the permit count of host `h` (no-op when absent). -/
def semUpdate (f : Nat → Nat) : List (String × Nat) → String → List (String × Nat)
  | [], _ => []
  | (k, v) :: rest, h => if k = h then (k, f v) :: rest else (k, v) :: semUpdate f rest h

/-- The lookup-or-create on `serverlocks[serverurl]` (news-aggregator.cc
lines 118–123): a fresh semaphore of `kMaxTperS` permits on first sight. -/
def ensureHost (sems : List (String × Nat)) (h : String) : List (String × Nat) :=
  match semLookup sems h with
  | some _ => sems
  | none => sems ++ [(h, kMaxTperS)]

/-- The crawl state at program start. -/
def initState : AggState :=
  { feedsAvail := kMaxfeed, threadsAvail := kMaxthread, hostSems := [],
    index := [], feedsStarted := [], articlesStarted := [], out := [], err := [] }

/-! ## The crawl pipeline -/

/-- Function `articletoTokens(article, up)`, news-aggregator.cc lines 69–94, run at
the point where `threadsAllowed.wait()` returns. `fetchResult` is the
outcome of `HTMLDocument::parse()` on `article.url` (`Except.error ()`
when it throws `HTMLDocumentException`, otherwise the token vector), and
`host` is the key of the per-host semaphore `up` that the spawning feed
task acquired for this article. -/
def articletoTokens (article : Article) (host : String)
    (fetchResult : Except Unit (List String)) (s : AggState) : AggState :=
  let s1 := { s with threadsAvail := s.threadsAvail - 1 }
  let title := if shouldTruncate article.title then truncate article.title else article.title
  let url := if shouldTruncate article.url then truncate article.url else article.url
  let s2 := { s1 with out := s1.out ++ [OutLine.parsing title, OutLine.atUrl url] }
  match fetchResult with
  | .error _ =>
      { s2 with err := s2.err ++ [ErrLine.articleTrouble article.url],
                threadsAvail := s2.threadsAvail + 1,
                hostSems := semUpdate (· + 1) s2.hostSems host }
  | .ok tokens =>
      { s2 with index := RSSIndex.add s2.index article tokens,
                threadsAvail := s2.threadsAvail + 1,
                hostSems := semUpdate (· + 1) s2.hostSems host }

/-- The article fan-out loop of `feedtoTokens` (news-aggregator.cc lines
114–127), interpreted in spawn order: each spawned article thread is
recorded in `articlesStarted` and its body runs to completion before the
next spawn — one interleaving of the concurrent execution. -/
def processArticles (articleFetch : String → Except Unit (List String)) :
    List Article → AggState → AggState
  | [], s => s
  | article :: rest, s =>
      let host := getURLServer article.url
      let sems := ensureHost s.hostSems host
      let s1 := { s with hostSems := semUpdate (· - 1) sems host,
                         articlesStarted := s.articlesStarted ++ [article] }
      let s2 := articletoTokens article host (articleFetch article.url) s1
      processArticles articleFetch rest s2

/-- Function `feedtoTokens(feed)`, news-aggregator.cc lines 101–130. `feed` is a
`(url, title)` pair; `feedResult` is the outcome of `RSSFeed::parse()`
(`Except.error ()` when it throws `RSSFeedException`, otherwise the
article vector returned by `getArticles()`). -/
def feedtoTokens (articleFetch : String → Except Unit (List String))
    (feed : String × String) (feedResult : Except Unit (List Article))
    (s : AggState) : AggState :=
  let s0 := { s with out := s.out ++ [OutLine.beginFeed feed.1] }
  match feedResult with
  | .error _ =>
      { s0 with err := s0.err ++ [ErrLine.feedTrouble feed.1],
                feedsAvail := s0.feedsAvail + 1 }
  | .ok articles =>
      let s1 := { s0 with feedsAvail := s0.feedsAvail + 1 }
      let s2 := processArticles articleFetch articles s1
      { s2 with out := s2.out ++ [OutLine.endFeed feed.1] }

/-- The feed fan-out loop of `processAllFeeds` (news-aggregator.cc lines
146–150), interpreted in spawn order: `feedsAllowed.wait()`, record the
spawned feed thread, run its body to completion. -/
def processFeedList (articleFetch : String → Except Unit (List String))
    (feedFetch : String → Except Unit (List Article)) :
    List (String × String) → AggState → AggState
  | [], s => s
  | feed :: rest, s =>
      let s1 := { s with feedsAvail := s.feedsAvail - 1,
                         feedsStarted := s.feedsStarted ++ [feed.1] }
      let s2 := feedtoTokens articleFetch feed (feedFetch feed.1) s1
      processFeedList articleFetch feedFetch rest s2

/-- Function `processAllFeeds(feedListURI)`, news-aggregator.cc lines 133–154.
`feedListResult` is the outcome of `RSSFeedList::parse()` (`Except.error ()`
when it throws `RSSFeedListException`, otherwise the `(url, title)` pairs
of `getFeeds()`). The `Except.error` result models `exit(0)`: it carries
the exit status and the state at the moment of exit. -/
def processAllFeeds (feedListURI : String)
    (feedListResult : Except Unit (List (String × String)))
    (feedFetch : String → Except Unit (List Article))
    (articleFetch : String → Except Unit (List String))
    (s : AggState) : Except (Nat × AggState) AggState :=
  match feedListResult with
  | .error _ =>
      .error (0, { s with err := s.err ++ [ErrLine.feedListTrouble feedListURI] })
  | .ok allfeeds => .ok (processFeedList articleFetch feedFetch allfeeds s)

/-! ## The query engine -/

/-- One result line printed by the query loop: 1-based rank, displayed
(possibly truncated) title and URL, and the occurrence count. -/
structure RenderedMatch where
  rank : Nat
  title : String
  url : String
  count : Nat
deriving DecidableEq, Repr

/-- The rendering loop of `queryIndex` (news-aggregator.cc lines 182–194):
walks the match list, stopping after `kMaxMatchesToShow` entries, and
truncates overlong titles/URLs in its local copies. -/
def renderLoop : Nat → List (Article × Nat) → List RenderedMatch
  | _, [] => []
  | count, m :: rest =>
      if count = kMaxMatchesToShow then []
      else
        { rank := count + 1,
          title := if shouldTruncate m.1.title then truncate m.1.title else m.1.title,
          url := if shouldTruncate m.1.url then truncate m.1.url else m.1.url,
          count := m.2 } :: renderLoop (count + 1) rest

/-- What one non-empty query prints: the term, the total match count
reported in the summary line (`matches.size()`), and the rendered
result lines. -/
structure QueryOutput where
  term : String
  total : Nat
  rendered : List RenderedMatch
deriving DecidableEq, Repr

/-- One iteration of the query loop body for a non-empty trimmed term
(news-aggregator.cc lines 172–194). -/
def renderQuery (idx : RSSIndex) (term : String) : QueryOutput :=
  let ms := RSSIndex.getMatchingArticles idx term
  { term := term, total := ms.length, rendered := renderLoop 0 ms }

/-- Function `queryIndex()`, news-aggregator.cc lines 165–197, over the sequence of
lines available on standard input: each line is trimmed; an empty trimmed
line breaks the loop; otherwise the index is queried and the loop
continues with the next line. -/
def queryIndex (idx : RSSIndex) : List String → List QueryOutput
  | [] => []
  | line :: rest =>
      let response := trim line
      if response.isEmpty then []
      else renderQuery idx response :: queryIndex idx rest

/-! ## The entry point -/

/-- The observable outcome of a whole run: the exit status, the final
crawl state, and `some outputs` exactly when the interactive query loop
was entered. -/
structure RunResult where
  exitStatus : Nat
  finalState : AggState
  queries : Option (List QueryOutput)
deriving DecidableEq, Repr

/-- Function `main`, news-aggregator.cc lines 205–222 (named `mainRun` because a
declaration called `main` is reserved in Lean). `args` is the argv vector
(so `args.length` is `argc`); the fetch oracles and the standard-input
lines parametrize the external world. -/
def mainRun (args : List String)
    (feedListResult : Except Unit (List (String × String)))
    (feedFetch : String → Except Unit (List Article))
    (articleFetch : String → Except Unit (List String))
    (inputs : List String) : RunResult :=
  if args.length ≠ 2 then
    { exitStatus := 0,
      finalState :=
        { initState with err := [ErrLine.wrongArguments, printUsage (args.headD "")] },
      queries := none }
  else
    match processAllFeeds (args.getD 1 "") feedListResult feedFetch articleFetch initState with
    | .error (code, s) => { exitStatus := code, finalState := s, queries := none }
    | .ok s => { exitStatus := 0, finalState := s, queries := some (queryIndex s.index inputs) }

/-! ## Interleaving model of the article-task concurrency

For the concurrency-cap claim, the article tasks are modelled as a
small-step transition system on the shared semaphore state, with one
step per semaphore operation as sequenced by the code:

* `ensure` — the feed thread's lookup-or-create of `serverlocks[host]`
  under `servermaplock` (news-aggregator.cc lines 118–123);
* `spawn` — the feed thread's `up->wait()` followed by spawning the
  article thread (lines 124–125); the new task holds its host permit;
* `start` — the article thread's `threadsAllowed.wait()` returning
  (line 70); the fetch/parse of the document is now in flight;
* `finish` — the article thread's `threadsAllowed.signal(); up->signal()`
  on either the success or the failure path (lines 84–85 and 92–93); the
  fetch is no longer in flight.

An article fetch is *in flight* between `start` and `finish`, which is
exactly when the task holds both its global permit and its host permit.
Steps may interleave arbitrarily across tasks of all feeds. -/

/-- Lifecycle phase of one spawned article task. -/
inductive Phase
  | spawned
  | fetching
  | done
deriving DecidableEq, Repr

/-- One spawned article task: the origin host of its article's URL and
its current phase. -/
structure ATask where
  host : String
  phase : Phase
deriving DecidableEq, Repr

/-- The shared state the article tasks interact through: available
permits of `threadsAllowed`, available permits of each semaphore in
`serverlocks`, and the spawned tasks. -/
structure Sys where
  threadsAvail : Nat
  hostSems : List (String × Nat)
  tasks : List ATask
deriving DecidableEq, Repr

/-- The system state at program start: `threadsAllowed` full at
`kMaxthread`, no per-host semaphores, no tasks. -/
def sysInit : Sys := { threadsAvail := kMaxthread, hostSems := [], tasks := [] }

/-- One interleaved step of the crawl's article-task concurrency. -/
inductive Step : Sys → Sys → Prop
  | ensure (h : String) (s : Sys) :
      Step s { s with hostSems := ensureHost s.hostSems h }
  | spawn (h : String) (s : Sys) (v : Nat) :
      semLookup s.hostSems h = some (v + 1) →
      Step s { s with hostSems := semUpdate (· - 1) s.hostSems h,
                      tasks := ⟨h, Phase.spawned⟩ :: s.tasks }
  | start (h : String) (pre post : List ATask) (n : Nat) (sems : List (String × Nat)) :
      Step ⟨n + 1, sems, pre ++ ⟨h, Phase.spawned⟩ :: post⟩
           ⟨n, sems, pre ++ ⟨h, Phase.fetching⟩ :: post⟩
  | finish (h : String) (pre post : List ATask) (n : Nat) (sems : List (String × Nat)) :
      Step ⟨n, sems, pre ++ ⟨h, Phase.fetching⟩ :: post⟩
           ⟨n + 1, semUpdate (· + 1) sems h, pre ++ ⟨h, Phase.done⟩ :: post⟩

/-- States reachable from the initial state by interleaved steps. -/
inductive Reach : Sys → Prop
  | init : Reach sysInit
  | step {s t : Sys} : Reach s → Step s t → Reach t

/-- Number of article fetches currently in flight against host `h`. -/
def fetchingAt (tasks : List ATask) (h : String) : Nat :=
  tasks.countP (fun t => t.host = h ∧ t.phase = Phase.fetching)

/-- Total number of article fetches currently in flight. -/
def totalFetching (tasks : List ATask) : Nat :=
  tasks.countP (fun t => t.phase = Phase.fetching)

/-- Number of tasks currently holding a permit of host `h`'s semaphore:
every task that has been spawned and has not yet finished. -/
def heldBy (tasks : List ATask) (h : String) : Nat :=
  tasks.countP (fun t => t.host = h ∧ t.phase ≠ Phase.done)

/-- The inductive invariant: `threadsAllowed`'s available permits plus
in-flight fetches account for all `kMaxthread` permits, and each host
semaphore's available permits plus the permits held by that host's live
tasks account for all `kMaxTperS` permits (hosts without a semaphore
have no tasks). -/
def SysInv (s : Sys) : Prop :=
  (s.threadsAvail + totalFetching s.tasks = kMaxthread) ∧
  (∀ h : String, semLookup s.hostSems h = none → heldBy s.tasks h = 0) ∧
  (∀ (h : String) (v : Nat), semLookup s.hostSems h = some v →
      v + heldBy s.tasks h = kMaxTperS)

/-! ## Lemmas about the inverted index -/

theorem occList_bumpArticle (a : Article) (url : String) (l : List (Article × Nat)) :
    occList url (bumpArticle a l) = occList url l + (if a.url = url then 1 else 0) := by
  induction l with
  | nil => by_cases hu : a.url = url <;> simp [bumpArticle, occList, hu]
  | cons e rest ih =>
      obtain ⟨b, c⟩ := e
      by_cases hb : b.url = a.url
      · by_cases hu : a.url = url <;> simp [bumpArticle, occList, hb, hu]
        omega
      · simp [bumpArticle, occList, hb, ih]
        omega

theorem lookupTok_addTokenEntry (a : Article) (t : String) (idx : RSSIndex) (tok : String) :
    lookupTok (addTokenEntry a t idx) tok =
      if t = tok then bumpArticle a (lookupTok idx tok) else lookupTok idx tok := by
  induction idx with
  | nil => by_cases h : t = tok <;> simp [addTokenEntry, lookupTok, h, bumpArticle]
  | cons e rest ih =>
      obtain ⟨k, entries⟩ := e
      by_cases hk : k = t
      · subst hk
        by_cases h : k = tok <;> simp [addTokenEntry, lookupTok, h]
      · by_cases h : k = tok
        · subst h
          simp [addTokenEntry, lookupTok, hk, Ne.symm hk]
        · simp [addTokenEntry, lookupTok, hk, h, ih]

theorem occ_addTokenEntry (a : Article) (t : String) (idx : RSSIndex) (tok url : String) :
    RSSIndex.occ (addTokenEntry a t idx) tok url =
      RSSIndex.occ idx tok url + (if t = tok then (if a.url = url then 1 else 0) else 0) := by
  unfold RSSIndex.occ
  rw [lookupTok_addTokenEntry]
  by_cases h : t = tok
  · simp [h, occList_bumpArticle]
  · simp [h]

theorem occ_add (idx : RSSIndex) (a : Article) (ts : List String) (tok url : String) :
    RSSIndex.occ (RSSIndex.add idx a ts) tok url =
      RSSIndex.occ idx tok url + (if a.url = url then ts.count tok else 0) := by
  induction ts generalizing idx with
  | nil => simp [RSSIndex.add]
  | cons t ts ih =>
      have step : RSSIndex.add idx a (t :: ts) = RSSIndex.add (addTokenEntry a t idx) a ts := rfl
      rw [step, ih, occ_addTokenEntry]
      by_cases hu : a.url = url <;> by_cases ht : t = tok <;>
        simp [List.count_cons, hu, ht]
      omega

theorem numEntriesList_bumpArticle_ne (a : Article) (url : String) (hne : a.url ≠ url)
    (l : List (Article × Nat)) :
    numEntriesList url (bumpArticle a l) = numEntriesList url l := by
  induction l with
  | nil => simp [bumpArticle, numEntriesList, hne]
  | cons e rest ih =>
      obtain ⟨b, c⟩ := e
      by_cases hb : b.url = a.url
      · simp [bumpArticle, numEntriesList, hb]
      · simp [bumpArticle, numEntriesList, hb, ih]

theorem numEntriesList_bumpArticle_le (a : Article) (url : String)
    (l : List (Article × Nat)) (h : numEntriesList url l ≤ 1) :
    numEntriesList url (bumpArticle a l) ≤ 1 := by
  induction l with
  | nil =>
      by_cases hu : a.url = url <;> simp [bumpArticle, numEntriesList, hu]
  | cons e rest ih =>
      obtain ⟨b, c⟩ := e
      by_cases hb : b.url = a.url
      · simpa [bumpArticle, numEntriesList, hb] using h
      · by_cases pb : b.url = url
        · have hau : a.url ≠ url := fun hc => hb (pb.trans hc.symm)
          have hrest : numEntriesList url rest = 0 := by
            simp [numEntriesList, pb] at h
            omega
          simp only [bumpArticle, if_neg hb]
          simp [numEntriesList, pb, hrest,
            numEntriesList_bumpArticle_ne a url hau rest]
        · have hrest : numEntriesList url rest ≤ 1 := by
            simpa [numEntriesList, pb] using h
          simp [bumpArticle, numEntriesList, hb, pb, ih hrest]

theorem numEntries_addTokenEntry_le (a : Article) (t : String) (idx : RSSIndex)
    (tok url : String) (h : RSSIndex.numEntries idx tok url ≤ 1) :
    RSSIndex.numEntries (addTokenEntry a t idx) tok url ≤ 1 := by
  unfold RSSIndex.numEntries at *
  rw [lookupTok_addTokenEntry]
  by_cases ht : t = tok
  · simpa [ht] using numEntriesList_bumpArticle_le a url _ h
  · simpa [ht] using h

theorem numEntries_add_le (idx : RSSIndex) (a : Article) (ts : List String)
    (tok url : String) (h : RSSIndex.numEntries idx tok url ≤ 1) :
    RSSIndex.numEntries (RSSIndex.add idx a ts) tok url ≤ 1 := by
  induction ts generalizing idx with
  | nil => exact h
  | cons t ts ih => exact ih (addTokenEntry a t idx) (numEntries_addTokenEntry_le a t idx tok url h)

/-! ## Lemmas about the ranking sort -/

theorem mem_insertDesc {z x : Article × Nat} {l : List (Article × Nat)} :
    z ∈ insertDesc x l ↔ z = x ∨ z ∈ l := by
  induction l with
  | nil => simp [insertDesc]
  | cons y ys ih =>
      by_cases h : y.2 ≤ x.2
      · simp [insertDesc, h]
      · simp [insertDesc, h, ih]
        tauto

theorem pairwise_insertDesc (x : Article × Nat) (l : List (Article × Nat))
    (h : l.Pairwise (fun p q => q.2 ≤ p.2)) :
    (insertDesc x l).Pairwise (fun p q => q.2 ≤ p.2) := by
  induction l with
  | nil => simp [insertDesc]
  | cons y ys ih =>
      rw [List.pairwise_cons] at h
      obtain ⟨hy, hys⟩ := h
      by_cases hc : y.2 ≤ x.2
      · rw [insertDesc, if_pos hc, List.pairwise_cons]
        refine ⟨?_, ?_⟩
        · intro z hz
          rcases List.mem_cons.mp hz with hzy | hzys
          · exact hzy ▸ hc
          · exact le_trans (hy z hzys) hc
        · rw [List.pairwise_cons]
          exact ⟨hy, hys⟩
      · rw [insertDesc, if_neg hc, List.pairwise_cons]
        refine ⟨?_, ih hys⟩
        intro z hz
        rcases mem_insertDesc.mp hz with hzx | hzys
        · subst hzx
          omega
        · exact hy z hzys

theorem pairwise_sortDesc (l : List (Article × Nat)) :
    (sortDesc l).Pairwise (fun p q => q.2 ≤ p.2) := by
  induction l with
  | nil => simp [sortDesc]
  | cons x xs ih => exact pairwise_insertDesc x (sortDesc xs) ih

/-! ## Claim C4: double add doubles counts, without duplicate entries -/

/-- C4: for every article and token sequence, calling `RSSIndex.add`
twice on a fresh index with the same article and an identical token
sequence yields, for every token, an occurrence count (at the article's
URL) exactly double the count produced by a single call; and the
repeated submission accumulates counts rather than creating duplicate
posting-list entries — each token keeps at most one entry for that URL. -/
theorem add_twice_doubles (a : Article) (ts : List String) (tok : String) :
    RSSIndex.occ (RSSIndex.add (RSSIndex.add [] a ts) a ts) tok a.url =
      2 * RSSIndex.occ (RSSIndex.add [] a ts) tok a.url ∧
    RSSIndex.numEntries (RSSIndex.add (RSSIndex.add [] a ts) a ts) tok a.url ≤ 1 := by
  constructor
  · rw [occ_add, occ_add]
    have hempty : RSSIndex.occ ([] : RSSIndex) tok a.url = 0 := rfl
    rw [hempty]
    simp
    omega
  · refine numEntries_add_le _ a ts tok a.url (numEntries_add_le _ a ts tok a.url ?_)
    simp [RSSIndex.numEntries, lookupTok, numEntriesList]

/-! ## Claim C3: query results are ranked by non-increasing count -/

/-- C3: for every query term with at least one match, the sequence
returned by `RSSIndex.getMatchingArticles` is ordered by non-increasing
occurrence count: every adjacent pair of returned (article, count)
entries has the earlier count greater than or equal to the later count. -/
theorem getMatchingArticles_ranked (idx : RSSIndex) (term : String)
    (_hne : RSSIndex.getMatchingArticles idx term ≠ []) :
    (RSSIndex.getMatchingArticles idx term).Chain' (fun p q => q.2 ≤ p.2) :=
  List.Pairwise.chain' (pairwise_sortDesc (lookupTok idx term))

/-- Witness for C3 at a concrete two-feed index where the term "go"
matches two articles with counts 2 and 1. -/
theorem getMatchingArticles_ranked_witness :
    RSSIndex.getMatchingArticles
        (RSSIndex.add (RSSIndex.add [] ⟨"A", "ua"⟩ ["go", "go"]) ⟨"B", "ub"⟩ ["go"]) "go" ≠ [] ∧
    (RSSIndex.getMatchingArticles
        (RSSIndex.add (RSSIndex.add [] ⟨"A", "ua"⟩ ["go", "go"]) ⟨"B", "ub"⟩ ["go"]) "go").Chain'
      (fun p q => q.2 ≤ p.2) :=
  ⟨by decide, getMatchingArticles_ranked _ "go" (by decide)⟩

/-! ## Claim C5: the display cap of the query engine -/

theorem renderLoop_length_ranks (c : Nat) (ms : List (Article × Nat))
    (hc : c ≤ kMaxMatchesToShow) :
    (renderLoop c ms).length = min (kMaxMatchesToShow - c) ms.length ∧
    (renderLoop c ms).map (fun r => r.rank) =
      List.range' (c + 1) (min (kMaxMatchesToShow - c) ms.length) := by
  induction ms generalizing c with
  | nil => simp [renderLoop]
  | cons m rest ih =>
      by_cases h : c = kMaxMatchesToShow
      · subst h
        simp [renderLoop]
      · have hlt : c < kMaxMatchesToShow := lt_of_le_of_ne hc h
        obtain ⟨ih1, ih2⟩ := ih (c + 1) hlt
        have hmin : min (kMaxMatchesToShow - c) (rest.length + 1) =
            min (kMaxMatchesToShow - (c + 1)) rest.length + 1 := by omega
        rw [renderLoop, if_neg h]
        refine ⟨?_, ?_⟩
        · simp [ih1]
          omega
        · simp only [List.map_cons, ih2, List.length_cons, hmin, List.range']

/-- C5: the query engine reports the full match count in its summary
(`total` is the length of the list `RSSIndex.getMatchingArticles`
returned by the index), while rendering `min kMaxMatchesToShow total`
result lines with 1-based ranks 1, 2, …: for more than 15 matches this
is exactly 15 entries ranked 1 through 15, and for 15 or fewer matches
it is all of them. -/
theorem queryIndex_display_cap (idx : RSSIndex) (term : String) :
    (renderQuery idx term).total = (RSSIndex.getMatchingArticles idx term).length ∧
    (renderQuery idx term).rendered.length =
      min kMaxMatchesToShow (RSSIndex.getMatchingArticles idx term).length ∧
    (renderQuery idx term).rendered.map (fun r => r.rank) =
      List.range' 1 (min kMaxMatchesToShow (RSSIndex.getMatchingArticles idx term).length) := by
  obtain ⟨h1, h2⟩ :=
    renderLoop_length_ranks 0 (RSSIndex.getMatchingArticles idx term) (Nat.zero_le _)
  rw [Nat.sub_zero] at h1 h2
  exact ⟨rfl, h1, h2⟩

/-! ## Claim C7: the query loop trims input and stops exactly on empty input -/

/-- C7: each input line of the interactive loop is trimmed of
surrounding whitespace; the loop terminates exactly when the trimmed
line is empty — an empty trimmed line ends the loop, and a non-empty
trimmed line queries the index for the trimmed term and continues with
the remaining input. -/
theorem queryIndex_trim_loop (idx : RSSIndex) (line : String) (rest : List String) :
    ((trim line).isEmpty = true → queryIndex idx (line :: rest) = []) ∧
    ((trim line).isEmpty = false →
      queryIndex idx (line :: rest) = renderQuery idx (trim line) :: queryIndex idx rest) := by
  constructor <;> intro h <;> simp [queryIndex, h]

/-- Witness for C7: a whitespace-only line ends the loop; a line that
trims to "go" queries the index and continues. -/
theorem queryIndex_trim_loop_witness :
    queryIndex [] ["  "] = [] ∧
    queryIndex [] [" go ", ""] = renderQuery [] (trim " go ") :: queryIndex [] [""] :=
  ⟨(queryIndex_trim_loop [] "  " []).1 (by decide),
   (queryIndex_trim_loop [] " go " [""]).2 (by decide)⟩

/-! ## Claim C9: wrong argument count -/

/-- C9: invoked with any argument count other than exactly one user
argument (`argc ≠ 2`), the program prints the wrong-arguments message and
the usage line (via `printUsage`) to standard error and exits with
status 0, having performed no crawling and no querying: the final state
is the initial state apart from the two error lines, and the query loop
is never entered. -/
theorem main_wrong_argc (args : List String)
    (feedListResult : Except Unit (List (String × String)))
    (feedFetch : String → Except Unit (List Article))
    (articleFetch : String → Except Unit (List String))
    (inputs : List String) (h : args.length ≠ 2) :
    mainRun args feedListResult feedFetch articleFetch inputs =
      { exitStatus := 0,
        finalState :=
          { initState with err := [ErrLine.wrongArguments, printUsage (args.headD "")] },
        queries := none } := by
  simp [mainRun, h]

/-- Witness for C9 at `argc = 1` (no user argument at all). -/
theorem main_wrong_argc_witness :
    mainRun ["news-aggregator"] (Except.error ()) (fun _ => Except.error ())
        (fun _ => Except.error ()) [] =
      { exitStatus := 0,
        finalState :=
          { initState with
              err := [ErrLine.wrongArguments, printUsage "news-aggregator"] },
        queries := none } :=
  main_wrong_argc ["news-aggregator"] (Except.error ()) (fun _ => Except.error ())
    (fun _ => Except.error ()) [] (by decide)

/-! ## Claim C8: a feed-list failure is fatal before any crawling -/

/-- C8: when `RSSFeedList::parse` fails, `processAllFeeds` calls
`exit(0)` at once — the run ends with status 0 in a state that differs
from the state at entry only by the logged failure: no feed task was
started, no article task was started, and the index is untouched — and
consequently `mainRun` ends with status 0, never reaching the query
phase, with nothing crawled and an empty index. -/
theorem feedlist_failure_fatal (feedListURI : String)
    (feedFetch : String → Except Unit (List Article))
    (articleFetch : String → Except Unit (List String))
    (s : AggState) (args : List String) (inputs : List String)
    (hargs : args.length = 2) :
    processAllFeeds feedListURI (Except.error ()) feedFetch articleFetch s =
      Except.error (0, { s with err := s.err ++ [ErrLine.feedListTrouble feedListURI] }) ∧
    mainRun args (Except.error ()) feedFetch articleFetch inputs =
      { exitStatus := 0,
        finalState :=
          { initState with err := [ErrLine.feedListTrouble (args.getD 1 "")] },
        queries := none } := by
  refine ⟨rfl, ?_⟩
  simp [mainRun, hargs, processAllFeeds, initState]

/-- Witness for C8 at a concrete two-argument invocation with a failing
feed-list fetch. -/
theorem feedlist_failure_fatal_witness :
    processAllFeeds "feeds.xml" (Except.error ()) (fun _ => Except.error ())
        (fun _ => Except.error ()) initState =
      Except.error
        (0, { initState with err := [ErrLine.feedListTrouble "feeds.xml"] }) ∧
    mainRun ["news-aggregator", "feeds.xml"] (Except.error ()) (fun _ => Except.error ())
        (fun _ => Except.error ()) [] =
      { exitStatus := 0,
        finalState := { initState with err := [ErrLine.feedListTrouble "feeds.xml"] },
        queries := none } :=
  feedlist_failure_fatal "feeds.xml" (fun _ => Except.error ()) (fun _ => Except.error ())
    initState ["news-aggregator", "feeds.xml"] [] (by decide)

/-! ## Claim C2: feed failures are isolated and the query loop always runs -/

theorem feedtoTokens_error (articleFetch : String → Except Unit (List String))
    (feed : String × String) (s : AggState) :
    feedtoTokens articleFetch feed (Except.error ()) s =
      { s with out := s.out ++ [OutLine.beginFeed feed.1],
               err := s.err ++ [ErrLine.feedTrouble feed.1],
               feedsAvail := s.feedsAvail + 1 } := rfl

theorem processFeedList_all_fail (articleFetch : String → Except Unit (List String))
    (feedFetch : String → Except Unit (List Article))
    (feeds : List (String × String)) (s : AggState)
    (h : ∀ f ∈ feeds, feedFetch f.1 = Except.error ()) :
    (processFeedList articleFetch feedFetch feeds s).index = s.index ∧
    (processFeedList articleFetch feedFetch feeds s).articlesStarted = s.articlesStarted := by
  induction feeds generalizing s with
  | nil => exact ⟨rfl, rfl⟩
  | cons feed rest ih =>
      have hf : feedFetch feed.1 = Except.error () := h feed (List.mem_cons_self feed rest)
      have hrest : ∀ f ∈ rest, feedFetch f.1 = Except.error () :=
        fun f hm => h f (List.mem_cons_of_mem feed hm)
      rw [processFeedList, hf, feedtoTokens_error]
      exact ih _ hrest

/-- C2: (i) for every feed whose fetch/parse fails, `feedtoTokens`
releases the feed permit (`feedsAvail` grows by one net of the wait done
by the spawner), logs the failure, and returns with the state otherwise
unchanged — in particular no article task is started and the index is
untouched; (ii) even when every feed of the list fails, `mainRun` still
reaches the interactive query loop, over an empty index, rather than
crashing or exiting. -/
theorem feed_failure_isolated :
    (∀ (articleFetch : String → Except Unit (List String)) (feed : String × String)
        (s : AggState),
        feedtoTokens articleFetch feed (Except.error ()) s =
          { s with out := s.out ++ [OutLine.beginFeed feed.1],
                   err := s.err ++ [ErrLine.feedTrouble feed.1],
                   feedsAvail := s.feedsAvail + 1 }) ∧
    (∀ (args : List String) (feeds : List (String × String))
        (feedFetch : String → Except Unit (List Article))
        (articleFetch : String → Except Unit (List String)) (inputs : List String),
        args.length = 2 → (∀ f ∈ feeds, feedFetch f.1 = Except.error ()) →
        (mainRun args (Except.ok feeds) feedFetch articleFetch inputs).exitStatus = 0 ∧
        (mainRun args (Except.ok feeds) feedFetch articleFetch inputs).finalState.index = [] ∧
        (mainRun args (Except.ok feeds) feedFetch articleFetch inputs).queries =
          some (queryIndex [] inputs)) := by
  refine ⟨fun articleFetch feed s => feedtoTokens_error articleFetch feed s, ?_⟩
  intro args feeds feedFetch articleFetch inputs hargs hfail
  obtain ⟨hidx, _⟩ := processFeedList_all_fail articleFetch feedFetch feeds initState hfail
  have hinit : initState.index = ([] : RSSIndex) := rfl
  simp only [mainRun, hargs, processAllFeeds]
  simp only [ne_eq, not_true_eq_false, if_false]
  exact ⟨trivial, by rw [hidx, hinit], by rw [hidx, hinit]⟩

/-- Witness for C2: one failing feed leaves the state unchanged apart
from the released permit and the log lines, and a run over two failing
feeds still reaches the query loop with an empty index. -/
theorem feed_failure_isolated_witness :
    (feedtoTokens (fun _ => Except.error ()) ("http://a.com/feed", "A") (Except.error ())
        initState =
      { initState with
          out := [OutLine.beginFeed "http://a.com/feed"],
          err := [ErrLine.feedTrouble "http://a.com/feed"],
          feedsAvail := kMaxfeed + 1 }) ∧
    ((mainRun ["news-aggregator", "feeds.xml"]
        (Except.ok [("http://a.com/feed", "A"), ("http://b.com/feed", "B")])
        (fun _ => Except.error ()) (fun _ => Except.error ()) [""]).exitStatus = 0 ∧
     (mainRun ["news-aggregator", "feeds.xml"]
        (Except.ok [("http://a.com/feed", "A"), ("http://b.com/feed", "B")])
        (fun _ => Except.error ()) (fun _ => Except.error ()) [""]).finalState.index = [] ∧
     (mainRun ["news-aggregator", "feeds.xml"]
        (Except.ok [("http://a.com/feed", "A"), ("http://b.com/feed", "B")])
        (fun _ => Except.error ()) (fun _ => Except.error ()) [""]).queries =
       some (queryIndex [] [""])) :=
  ⟨feed_failure_isolated.1 (fun _ => Except.error ()) ("http://a.com/feed", "A") initState,
   feed_failure_isolated.2 ["news-aggregator", "feeds.xml"]
     [("http://a.com/feed", "A"), ("http://b.com/feed", "B")]
     (fun _ => Except.error ()) (fun _ => Except.error ()) [""] (by decide)
     (by intro f hf; fin_cases hf <;> rfl)⟩

/-! ## Claim C1: article failures are isolated -/

/-- C1: for an article whose fetch/parse fails, the article task
releases both of its permits — the global task permit, acquired by its
own `threadsAllowed.wait()` and returned by `threadsAllowed.signal()`,
so `threadsAvail` is unchanged net; and the per-host permit its spawner
acquired, returned by `up->signal()`, so the host's semaphore gains one
permit — adds nothing to the index, and changes nothing else beyond its
own progress and failure log lines: sibling tasks, the feed permit pool,
and the spawn records are untouched. -/
theorem article_failure_isolated (article : Article) (host : String) (s : AggState)
    (h : 0 < s.threadsAvail) :
    (articletoTokens article host (Except.error ()) s).index = s.index ∧
    (articletoTokens article host (Except.error ()) s).threadsAvail = s.threadsAvail ∧
    (articletoTokens article host (Except.error ()) s).hostSems =
      semUpdate (· + 1) s.hostSems host ∧
    (articletoTokens article host (Except.error ()) s).feedsAvail = s.feedsAvail ∧
    (articletoTokens article host (Except.error ()) s).feedsStarted = s.feedsStarted ∧
    (articletoTokens article host (Except.error ()) s).articlesStarted = s.articlesStarted ∧
    (articletoTokens article host (Except.error ()) s).err =
      s.err ++ [ErrLine.articleTrouble article.url] ∧
    (articletoTokens article host (Except.error ()) s).out =
      s.out ++
        [OutLine.parsing
          (if shouldTruncate article.title then truncate article.title else article.title),
         OutLine.atUrl
          (if shouldTruncate article.url then truncate article.url else article.url)] := by
  refine ⟨rfl, ?_, rfl, rfl, rfl, rfl, rfl, rfl⟩
  show s.threadsAvail - 1 + 1 = s.threadsAvail
  omega

/-- Witness for C1: a failing article task run from the initial state. -/
theorem article_failure_isolated_witness :
    0 < initState.threadsAvail ∧
    ((articletoTokens ⟨"T", "http://h.com/x"⟩ "h.com" (Except.error ()) initState).index =
       initState.index ∧
     (articletoTokens ⟨"T", "http://h.com/x"⟩ "h.com" (Except.error ()) initState).threadsAvail =
       initState.threadsAvail ∧
     (articletoTokens ⟨"T", "http://h.com/x"⟩ "h.com" (Except.error ()) initState).hostSems =
       semUpdate (· + 1) initState.hostSems "h.com" ∧
     (articletoTokens ⟨"T", "http://h.com/x"⟩ "h.com" (Except.error ()) initState).feedsAvail =
       initState.feedsAvail ∧
     (articletoTokens ⟨"T", "http://h.com/x"⟩ "h.com" (Except.error ()) initState).feedsStarted =
       initState.feedsStarted ∧
     (articletoTokens ⟨"T", "http://h.com/x"⟩ "h.com"
         (Except.error ()) initState).articlesStarted = initState.articlesStarted ∧
     (articletoTokens ⟨"T", "http://h.com/x"⟩ "h.com" (Except.error ()) initState).err =
       initState.err ++ [ErrLine.articleTrouble "http://h.com/x"] ∧
     (articletoTokens ⟨"T", "http://h.com/x"⟩ "h.com" (Except.error ()) initState).out =
       initState.out ++ [OutLine.parsing "T", OutLine.atUrl "http://h.com/x"]) :=
  ⟨by decide, article_failure_isolated ⟨"T", "http://h.com/x"⟩ "h.com" initState (by decide)⟩

/-! ## Claim C10: truncation is display-only -/

theorem renderLoop_display (c : Nat) (ms : List (Article × Nat))
    (hc : c ≤ kMaxMatchesToShow) :
    (renderLoop c ms).map (fun r => (r.title, r.url, r.count)) =
      (ms.take (kMaxMatchesToShow - c)).map
        (fun m => (if shouldTruncate m.1.title then truncate m.1.title else m.1.title,
                   if shouldTruncate m.1.url then truncate m.1.url else m.1.url, m.2)) := by
  induction ms generalizing c with
  | nil => simp [renderLoop]
  | cons m rest ih =>
      by_cases h : c = kMaxMatchesToShow
      · subst h
        simp [renderLoop]
      · have hlt : c < kMaxMatchesToShow := lt_of_le_of_ne hc h
        have hsub : kMaxMatchesToShow - c = (kMaxMatchesToShow - (c + 1)) + 1 := by omega
        rw [renderLoop, if_neg h, hsub]
        simp [ih (c + 1) hlt]

/-- C10: display truncation never reaches the index. (i) On a successful
fetch, `articletoTokens` passes the original `article` value — original
title and URL, untruncated — to `RSSIndex.add`, while the printed
progress lines use the locally truncated copies. (ii) In the query
phase, the rendered result lines show the (possibly truncated) local
copies of the stored titles and URLs, the stored entries themselves
being taken unmodified from `RSSIndex.getMatchingArticles`. -/
theorem truncation_display_only :
    (∀ (article : Article) (host : String) (tokens : List String) (s : AggState),
        (articletoTokens article host (Except.ok tokens) s).index =
          RSSIndex.add s.index article tokens ∧
        (articletoTokens article host (Except.ok tokens) s).out =
          s.out ++
            [OutLine.parsing
              (if shouldTruncate article.title then truncate article.title else article.title),
             OutLine.atUrl
              (if shouldTruncate article.url then truncate article.url else article.url)]) ∧
    (∀ (idx : RSSIndex) (term : String),
        (renderQuery idx term).rendered.map (fun r => (r.title, r.url, r.count)) =
          ((RSSIndex.getMatchingArticles idx term).take kMaxMatchesToShow).map
            (fun m => (if shouldTruncate m.1.title then truncate m.1.title else m.1.title,
                       if shouldTruncate m.1.url then truncate m.1.url else m.1.url, m.2))) := by
  constructor
  · intro article host tokens s
    exact ⟨rfl, rfl⟩
  · intro idx term
    have hmap := renderLoop_display 0 (RSSIndex.getMatchingArticles idx term) (Nat.zero_le _)
    rwa [Nat.sub_zero] at hmap

/-! ## Lemmas about the semaphore table -/

theorem semLookup_semUpdate (f : Nat → Nat) (sems : List (String × Nat)) (h h' : String) :
    semLookup (semUpdate f sems h) h' =
      if h' = h then (semLookup sems h).map f else semLookup sems h' := by
  induction sems with
  | nil => by_cases hh : h' = h <;> simp [semUpdate, semLookup, hh]
  | cons e rest ih =>
      obtain ⟨k, v⟩ := e
      by_cases hk : k = h
      · subst hk
        by_cases hh : h' = k
        · simp [semUpdate, semLookup, hh]
        · simp [semUpdate, semLookup, hh, Ne.symm hh]
      · by_cases hkh : k = h'
        · subst hkh
          have hh : ¬ k = h := hk
          simp [semUpdate, semLookup, hk, Ne.symm hk]
        · simp [semUpdate, semLookup, hk, hkh, ih]

theorem semLookup_append (l1 l2 : List (String × Nat)) (h : String) :
    semLookup (l1 ++ l2) h =
      match semLookup l1 h with
      | some v => some v
      | none => semLookup l2 h := by
  induction l1 with
  | nil => simp [semLookup]
  | cons e rest ih =>
      obtain ⟨k, v⟩ := e
      by_cases hk : k = h <;> simp [semLookup, hk, ih]

theorem semLookup_ensureHost (sems : List (String × Nat)) (h h' : String) :
    semLookup (ensureHost sems h) h' =
      if h' = h then some ((semLookup sems h).getD kMaxTperS)
      else semLookup sems h' := by
  unfold ensureHost
  cases hl : semLookup sems h with
  | some v =>
      by_cases hh : h' = h
      · subst hh
        simp [hl]
      · simp [hh]
  | none =>
      rw [semLookup_append]
      by_cases hh : h' = h
      · subst hh
        simp [hl, semLookup]
      · rw [if_neg hh]
        cases hl2 : semLookup sems h' with
        | some w => simp
        | none =>
            simp [semLookup]
            exact fun hc => hh hc.symm

/-! ## Counting lemmas for task lists -/

theorem totalFetching_cons (t : ATask) (tasks : List ATask) :
    totalFetching (t :: tasks) =
      totalFetching tasks + (if t.phase = Phase.fetching then 1 else 0) := by
  simp [totalFetching, List.countP_cons]

theorem heldBy_cons (t : ATask) (tasks : List ATask) (h : String) :
    heldBy (t :: tasks) h =
      heldBy tasks h + (if t.host = h ∧ t.phase ≠ Phase.done then 1 else 0) := by
  simp [heldBy, List.countP_cons]

theorem totalFetching_middle (pre post : List ATask) (h0 : String) (ph : Phase) :
    totalFetching (pre ++ ⟨h0, ph⟩ :: post) =
      totalFetching pre + totalFetching post + (if ph = Phase.fetching then 1 else 0) := by
  simp [totalFetching, List.countP_append, List.countP_cons]
  ring

theorem heldBy_middle (pre post : List ATask) (h0 : String) (ph : Phase) (h : String) :
    heldBy (pre ++ ⟨h0, ph⟩ :: post) h =
      heldBy pre h + heldBy post h +
        (if h0 = h ∧ ph ≠ Phase.done then 1 else 0) := by
  simp [heldBy, List.countP_append, List.countP_cons]
  ring

/-! ## The concurrency invariant is inductive -/

theorem sysInv_init : SysInv sysInit := by
  refine ⟨rfl, fun h _ => rfl, fun h v hl => ?_⟩
  simp [sysInit, semLookup] at hl

theorem sysInv_step {s t : Sys} (hinv : SysInv s) (hstep : Step s t) : SysInv t := by
  obtain ⟨h1, h2, h3⟩ := hinv
  cases hstep with
  | ensure h0 =>
      refine ⟨h1, ?_, ?_⟩
      · intro h hl
        rw [semLookup_ensureHost] at hl
        by_cases hh : h = h0
        · rw [if_pos hh] at hl
          exact absurd hl (by simp)
        · rw [if_neg hh] at hl
          exact h2 h hl
      · intro h v hl
        rw [semLookup_ensureHost] at hl
        by_cases hh : h = h0
        · rw [if_pos hh] at hl
          subst hh
          cases hl0 : semLookup s.hostSems h with
          | some w =>
              rw [hl0] at hl
              simp at hl
              subst hl
              exact h3 h w hl0
          | none =>
              rw [hl0] at hl
              simp at hl
              subst hl
              rw [h2 h hl0]
              simp
        · rw [if_neg hh] at hl
          exact h3 h v hl
  | spawn h0 sv v0 hl0 =>
      refine ⟨?_, ?_, ?_⟩
      · show s.threadsAvail + totalFetching (⟨h0, Phase.spawned⟩ :: s.tasks) = kMaxthread
        rw [totalFetching_cons]
        simpa using h1
      · intro h hl
        show heldBy (⟨h0, Phase.spawned⟩ :: s.tasks) h = 0
        rw [semLookup_semUpdate] at hl
        by_cases hh : h = h0
        · rw [if_pos hh, hl0] at hl
          simp at hl
        · rw [if_neg hh] at hl
          rw [heldBy_cons]
          have hne : ¬ (h0 = h ∧ Phase.spawned ≠ Phase.done) := fun hc => hh hc.1.symm
          rw [if_neg hne, h2 h hl]
      · intro h v hl
        show v + heldBy (⟨h0, Phase.spawned⟩ :: s.tasks) h = kMaxTperS
        rw [semLookup_semUpdate] at hl
        by_cases hh : h = h0
        · rw [if_pos hh, hl0] at hl
          simp at hl
          subst hl
          subst hh
          rw [heldBy_cons, if_pos ⟨rfl, by simp⟩]
          have := h3 h (v0 + 1) hl0
          omega
        · rw [if_neg hh] at hl
          rw [heldBy_cons]
          have hne : ¬ (h0 = h ∧ Phase.spawned ≠ Phase.done) := fun hc => hh hc.1.symm
          rw [if_neg hne]
          have := h3 h v hl
          omega
  | start h0 pre post n sems =>
      rw [totalFetching_middle] at h1
      refine ⟨?_, ?_, ?_⟩
      · show n + totalFetching (pre ++ ⟨h0, Phase.fetching⟩ :: post) = kMaxthread
        rw [totalFetching_middle]
        simp at h1 ⊢
        omega
      · intro h hl
        have hheld := h2 h hl
        rw [heldBy_middle] at hheld
        show heldBy (pre ++ ⟨h0, Phase.fetching⟩ :: post) h = 0
        rw [heldBy_middle]
        simpa using hheld
      · intro h v hl
        have hheld := h3 h v hl
        rw [heldBy_middle] at hheld
        show v + heldBy (pre ++ ⟨h0, Phase.fetching⟩ :: post) h = kMaxTperS
        rw [heldBy_middle]
        simp at hheld ⊢
        omega
  | finish h0 pre post n sems =>
      rw [totalFetching_middle] at h1
      refine ⟨?_, ?_, ?_⟩
      · show n + 1 + totalFetching (pre ++ ⟨h0, Phase.done⟩ :: post) = kMaxthread
        rw [totalFetching_middle]
        simp at h1 ⊢
        omega
      · intro h hl
        rw [semLookup_semUpdate] at hl
        show heldBy (pre ++ ⟨h0, Phase.done⟩ :: post) h = 0
        by_cases hh : h = h0
        · rw [if_pos hh] at hl
          subst hh
          cases hl0 : semLookup sems h with
          | some w => rw [hl0] at hl; simp at hl
          | none =>
              have hheld := h2 h hl0
              rw [heldBy_middle] at hheld
              simp at hheld
        · rw [if_neg hh] at hl
          have hheld := h2 h hl
          rw [heldBy_middle] at hheld
          rw [heldBy_middle]
          have hne : ¬ (h0 = h ∧ Phase.done ≠ Phase.done) := fun hc => hc.2 rfl
          rw [if_neg hne]
          have hne2 : ¬ (h0 = h ∧ Phase.fetching ≠ Phase.done) := fun hc => hh hc.1.symm
          rw [if_neg hne2] at hheld
          omega
      · intro h v hl
        rw [semLookup_semUpdate] at hl
        show v + heldBy (pre ++ ⟨h0, Phase.done⟩ :: post) h = kMaxTperS
        by_cases hh : h = h0
        · rw [if_pos hh] at hl
          subst hh
          cases hl0 : semLookup sems h with
          | none => rw [hl0] at hl; simp at hl
          | some w =>
              rw [hl0] at hl
              simp at hl
              subst hl
              have hheld := h3 h w hl0
              rw [heldBy_middle] at hheld
              rw [heldBy_middle]
              have hne : ¬ (h = h ∧ Phase.done ≠ Phase.done) := fun hc => hc.2 rfl
              rw [if_neg hne]
              rw [if_pos ⟨rfl, by simp⟩] at hheld
              omega
        · rw [if_neg hh] at hl
          have hheld := h3 h v hl
          rw [heldBy_middle] at hheld
          rw [heldBy_middle]
          have hne : ¬ (h0 = h ∧ Phase.done ≠ Phase.done) := fun hc => hc.2 rfl
          rw [if_neg hne]
          have hne2 : ¬ (h0 = h ∧ Phase.fetching ≠ Phase.done) := fun hc => hh hc.1.symm
          rw [if_neg hne2] at hheld
          omega

theorem sysInv_reach {s : Sys} (h : Reach s) : SysInv s := by
  induction h with
  | init => exact sysInv_init
  | step _ hstep ih => exact sysInv_step ih hstep

/-! ## Claim C6: the concurrency ceilings -/

/-- C6: in every state reachable by any interleaving of the article-task
steps, the number of article fetches in flight against any single origin
host never exceeds `kMaxTperS` (12), and the total number of article
fetches in flight never exceeds `kMaxthread` (64), regardless of how
many articles and hosts are scheduled. -/
theorem concurrency_caps {s : Sys} (h : Reach s) :
    totalFetching s.tasks ≤ kMaxthread ∧
    ∀ host : String, fetchingAt s.tasks host ≤ kMaxTperS := by
  obtain ⟨h1, h2, h3⟩ := sysInv_reach h
  refine ⟨by omega, ?_⟩
  intro host
  have hmono : fetchingAt s.tasks host ≤ heldBy s.tasks host := by
    apply List.countP_mono_left
    intro x _ hx
    simp only [decide_eq_true_eq] at hx ⊢
    refine ⟨hx.1, ?_⟩
    rw [hx.2]
    simp
  cases hl : semLookup s.hostSems host with
  | none =>
      have h0 := h2 host hl
      omega
  | some v =>
      have hv := h3 host v hl
      omega

/-- Witness for C6 at a reachable state with one fetch in flight:
the per-host semaphore for "h.com" was created, one article task was
spawned on it and has started its fetch. -/
theorem concurrency_caps_witness :
    totalFetching [ATask.mk "h.com" Phase.fetching] ≤ kMaxthread ∧
    ∀ host : String, fetchingAt [ATask.mk "h.com" Phase.fetching] host ≤ kMaxTperS :=
  concurrency_caps
    (Reach.step
      (Reach.step
        (Reach.step Reach.init (Step.ensure "h.com" sysInit))
        (Step.spawn "h.com" _ 11 rfl))
      (Step.start "h.com" [] [] 63 [("h.com", 11)]))
